import Mathlib

/-!
Verification development for the filesystem-tree service (Folder-Explorer).

The embedding models the two route handler files:
* the tree route (directory initializer, recursive directory reader,
  GET read-tree handler, POST create-folder handler), and
* the rename route (PATCH handler).

The filesystem is modelled as a finite list of entries keyed by segment
lists, together with a list of paths on which directory operations
(readdir / mkdir / rename) fail, which models permission or I/O errors.
JavaScript string primitives used by the handlers (split, trim,
toLowerCase, String.prototype.replace with a string pattern, and Node's
path.basename) are embedded as structurally recursive functions over the
character lists of Lean strings.
-/

/-- Splits a character list on a separator character, JavaScript
`String.prototype.split` semantics: always returns at least one (possibly
empty) chunk, and keeps empty chunks between adjacent separators. -/
def splitOnCharGo (sep : Char) : List Char → List Char → List (List Char)
  | [], acc => [acc.reverse]
  | c :: cs, acc =>
    if c = sep then acc.reverse :: splitOnCharGo sep cs []
    else splitOnCharGo sep cs (c :: acc)

/-- JavaScript `s.split(sep)` for a single-character separator. -/
def jsSplit (s : String) (sep : Char) : List String :=
  (splitOnCharGo sep s.data []).map (fun l => ⟨l⟩)

/-- Resolves a request-supplied relative path into the segment list used as
a key of the modelled filesystem; models the normalization performed by
Node's `path.join` (empty segments produced by duplicate or trailing
slashes are dropped). -/
def segsOf (s : String) : List String :=
  (jsSplit s '/').filter (fun t => t ≠ "")

/-- JavaScript `String.prototype.trim`. -/
def jsTrim (s : String) : String :=
  ⟨((s.data.dropWhile Char.isWhitespace).reverse.dropWhile Char.isWhitespace).reverse⟩

/-- JavaScript `String.prototype.toLowerCase` (ASCII range, as used by the
reader on filename extensions). -/
def jsToLower (s : String) : String :=
  ⟨s.data.map Char.toLower⟩

/-- The extension computation of the directory reader, embedding the
source expression `item.split('.').pop()?.toLowerCase() || ''`. -/
def jsExtension (item : String) : String :=
  let popped : String := (jsSplit item '.').getLastD ""
  let lowered : String := jsToLower popped
  if lowered = "" then "" else lowered

/-- Node's posix `path.basename`: drop trailing slashes, then take the
part after the last remaining slash; the empty string for an empty or
all-slash input. -/
def nodeBasename (s : String) : String :=
  let r := s.data.reverse.dropWhile (fun c => c = '/')
  if r.isEmpty then ""
  else ⟨(r.takeWhile (fun c => c ≠ '/')).reverse⟩

/-- ECMAScript GetSubstitution for a string-pattern `replace` (no capture
groups): in the replacement text, a dollar sign followed by another
dollar sign yields a literal dollar, followed by an ampersand yields the
matched substring, followed by a backquote (character code 96) yields the
portion of the subject before the match, and followed by a single quote
(character code 39) yields the portion after the match; every other
dollar sign, including one before a digit (there are no captures), is
literal. -/
def getSubstitution (matched before after : List Char) : List Char → List Char
  | [] => []
  | [c] => [c]
  | c :: d :: rest2 =>
    if c = '$' then
      if d = '$' then '$' :: getSubstitution matched before after rest2
      else if d = '&' then matched ++ getSubstitution matched before after rest2
      else if d = Char.ofNat 96 then before ++ getSubstitution matched before after rest2
      else if d = Char.ofNat 39 then after ++ getSubstitution matched before after rest2
      else c :: d :: getSubstitution matched before after rest2
    else c :: getSubstitution matched before after (d :: rest2)

/-- Replaces the first occurrence of `pat` (non-empty) in the list,
expanding dollar patterns in `rep` per `getSubstitution`; `seen` holds
the already-consumed part of the subject in reverse, so the portion
before the match is `seen.reverse`. -/
def replaceFirstAux (pat rep : List Char) (seen : List Char) : List Char → List Char
  | [] => []
  | c :: cs =>
    if pat.isPrefixOf (c :: cs) then
      getSubstitution pat seen.reverse ((c :: cs).drop pat.length) rep ++
        (c :: cs).drop pat.length
    else c :: replaceFirstAux pat rep (c :: seen) cs

/-- JavaScript `s.replace(pat, rep)` with a string pattern: replaces only
the first occurrence of `pat` (returning `s` unchanged if `pat` does not
occur), expanding ECMAScript dollar patterns in the replacement text; an
empty pattern matches at position zero. -/
def jsReplaceFirst (s pat rep : String) : String :=
  if pat.data.isEmpty then ⟨getSubstitution [] [] s.data rep.data ++ s.data⟩
  else ⟨replaceFirstAux pat.data rep.data [] s.data⟩

/-- Whether `pat` occurs as a contiguous sublist. -/
def containsSub (pat : List Char) : List Char → Bool
  | [] => pat.isEmpty
  | c :: cs => pat.isPrefixOf (c :: cs) || containsSub pat cs

/-- The forbidden-character set of the rename validator. -/
def invalidNameChars : List Char := ['<', '>', ':', '"', '/', '\\', '|', '?', '*']

/-- Embeds the rename handler's regular-expression test for forbidden
characters in the new name. -/
def hasInvalidChar (s : String) : Bool :=
  s.data.any (fun c => invalidNameChars.contains c)

/-- The last chunk of `rp.split('/')` with `""` for an empty split result,
used by the GET handler to name the synthetic root node. -/
def lastSplitSeg (s : String) : String :=
  (jsSplit s '/').getLastD ""

/-! ## Filesystem model -/

/-- Kind of a filesystem entry. -/
inductive FSKind where
  | file : FSKind
  | dir : FSKind
deriving DecidableEq

/-- One filesystem entry: its path as a segment list, its kind, its birth
and modification timestamps, and its size in bytes. -/
structure FSEntry where
  path : List String
  kind : FSKind
  btime : Nat
  mtime : Nat
  size : Nat
deriving DecidableEq

/-- The modelled filesystem: a finite entry list (whose order is the
enumeration order `readdir` reports), a list of paths on which directory
operations fail (permission / I/O errors), and the current clock used for
newly created entries. -/
structure FS where
  entries : List FSEntry
  failing : List (List String)
  now : Nat
deriving DecidableEq

/-- Finds the entry at a path, if any. -/
def lookupFS (fs : FS) (p : List String) : Option FSEntry :=
  fs.entries.find? (fun e => e.path == p)

/-- The kind reported by `stat` at a path, `none` when the path is absent
(`stat` throws ENOENT there). -/
def statKind (fs : FS) (p : List String) : Option FSKind :=
  (lookupFS fs p).map (fun e => e.kind)

/-- The child names `readdir` enumerates for a directory, in entry-list
order. -/
def childNames (fs : FS) (p : List String) : List String :=
  fs.entries.filterMap (fun e =>
    if e.path.length = p.length + 1 && p.isPrefixOf e.path then e.path.getLast? else none)

/-- All ancestors of a path, from `[]` up to the path itself. -/
def ancestors (p : List String) : List (List String) :=
  (List.range (p.length + 1)).map (fun k => p.take k)

/-- Error kinds reported by the modelled `mkdir`: Node distinguishes
EEXIST (the target itself exists as a non-directory) from other errors
(EACCES, ENOTDIR on an intermediate segment, ...), and the POST handler
branches on exactly that distinction. -/
inductive MkdirErr where
  | eexist : MkdirErr
  | other : MkdirErr
deriving DecidableEq

/-- Node's `mkdir(p, { recursive: true })`: succeeds silently when the
target is already a directory, reports EEXIST when the target exists as a
file, fails when an intermediate segment is a file or the path is on the
failing list, and otherwise creates every missing non-root prefix as an
empty directory. -/
def mkdirRec (fs : FS) (p : List String) : Except MkdirErr FS :=
  if p ∈ fs.failing then Except.error MkdirErr.other
  else
    match statKind fs p with
    | some FSKind.file => Except.error MkdirErr.eexist
    | some FSKind.dir => Except.ok fs
    | none =>
      if (ancestors p).any (fun q => statKind fs q == some FSKind.file) then
        Except.error MkdirErr.other
      else
        let created := ((ancestors p).filter
          (fun q => !q.isEmpty && statKind fs q == none)).map
          (fun q => FSEntry.mk q FSKind.dir fs.now fs.now 0)
        Except.ok { fs with entries := fs.entries ++ created }

/-- Node's `readdir`: fails on a path in the failing list (permission
denied) or a path that is not an existing directory. -/
def readdirE (fs : FS) (p : List String) : Except Unit (List String) :=
  if p ∈ fs.failing then Except.error ()
  else
    match statKind fs p with
    | some FSKind.dir => Except.ok (childNames fs p)
    | _ => Except.error ()

/-- Node's `rename`: moves the entry (and everything below it) from the
old path to the new path. -/
def renameFS (fs : FS) (oldP newP : List String) : FS :=
  { fs with entries := fs.entries.map (fun e =>
      if oldP.isPrefixOf e.path then { e with path := newP ++ e.path.drop oldP.length } else e) }

/-- The longest entry-path length, used to bound the recursion depth of
the directory walk. -/
def maxPathLen (fs : FS) : Nat :=
  fs.entries.foldr (fun e m => max e.path.length m) 0

/-! ## Tree nodes and JSON values -/

/-- The two tagged tree-node variants (FileNode / FolderNode) produced by
the directory reader and the GET handler. -/
inductive Node where
  | file (id name : String) (size : Nat) (extension mimeType : String)
      (createdAt updatedAt : Nat) : Node
  | folder (id name : String) (children : List Node)
      (createdAt updatedAt : Nat) : Node

/-- The `name` field of a node. -/
def Node.name : Node → String
  | Node.file _ nm _ _ _ _ _ => nm
  | Node.folder _ nm _ _ _ => nm

/-- The `updatedAt` field of a node. -/
def Node.updatedAt : Node → Nat
  | Node.file _ _ _ _ _ _ u => u
  | Node.folder _ _ _ _ u => u

/-- A JSON body field value as the handlers' JavaScript sees it: either a
string, or a non-string value together with its truthiness (so the
`!x || typeof x !== 'string'` checks can be modelled faithfully). -/
inductive JVal where
  | str (s : String) : JVal
  | nonString (truthy : Bool) : JVal
deriving DecidableEq

/-- Modelled from the spec: the unique-id generator `generateId` of the
external utility module `@/lib/fileUtils` is not part of the sources; the
spec declares its exact algorithm out of scope, so it is modelled as an
fixed placeholder string that none of the claims inspect. -/
def generateId : String := "generated-id"

/-- Modelled from the spec: the `getMimeType` lookup of the external
utility module `@/lib/fileUtils` is not part of the sources; the spec
declares the lookup table out of scope, so it is modelled as a
placeholder that none of the claims inspect. -/
def getMimeType (_name : String) : String := "application/octet-stream"

/-- Inserts a node into a list sorted by `updatedAt` descending, placing
it before the first node whose `updatedAt` is not larger (so an element
inserted from further left in the original list comes first among
ties). -/
def insertByUpdateDesc (n : Node) : List Node → List Node
  | [] => [n]
  | m :: ms =>
    if n.updatedAt < m.updatedAt then m :: insertByUpdateDesc n ms
    else n :: m :: ms

/-- Mirror image of `insertByUpdateDesc` for ascending order. -/
def insertByUpdateAsc (n : Node) : List Node → List Node
  | [] => [n]
  | m :: ms =>
    if m.updatedAt < n.updatedAt then m :: insertByUpdateAsc n ms
    else n :: m :: ms

/-- Modelled from the spec: `sortByLastUpdate` of the external utility
module `@/lib/fileUtils` is not part of the sources. The spec states that
the children sequence is sorted by `updatedAt` descending with ties kept
in original filesystem enumeration order, so the function is modelled as
a stable insertion sort on `updatedAt` (descending when the second
argument is `true`, as the reader invokes it, ascending otherwise). -/
def sortByLastUpdate (nodes : List Node) (desc : Bool) : List Node :=
  if desc then nodes.foldr insertByUpdateDesc []
  else nodes.foldr insertByUpdateAsc []

/-! ## Directory initializer and recursive reader -/

/-- The directory initializer: ensure the root exists via recursive
`mkdir`, and when the directory is empty afterwards seed it with the two
default subfolders `Documents` and `Images`. Every error is caught and
swallowed (the function returns the filesystem state reached at the point
of failure), mirroring the enclosing `try`/`catch` of the source. -/
def initializeUserFilesDirectory (fs : FS) (root : List String) : FS :=
  match mkdirRec fs root with
  | Except.error _ => fs
  | Except.ok fs1 =>
    match readdirE fs1 root with
    | Except.error _ => fs1
    | Except.ok items =>
      if items.length = 0 then
        match mkdirRec fs1 (root ++ ["Documents"]) with
        | Except.error _ => fs1
        | Except.ok fs2 =>
          match mkdirRec fs2 (root ++ ["Images"]) with
          | Except.error _ => fs2
          | Except.ok fs3 => fs3
      else fs1

/-- The recursive directory reader `readDirectory`, with an explicit
recursion-depth budget (the source recursion is unbounded; on the finite
modelled filesystems any budget exceeding the longest entry path is
exhaustive). A failing `readdir` is caught and yields the empty child
list for that directory. In this model `stat` of an enumerated child
never fails (every enumerated name comes from an existing entry), so the
source's per-entry `stat` is the entry lookup itself. -/
def readDirGo (fs : FS) : Nat → List String → List Node
  | 0, _ => []
  | fuel + 1, p =>
    match readdirE fs p with
    | Except.error _ => []
    | Except.ok items =>
      let nodes := items.filterMap (fun item =>
        (lookupFS fs (p ++ [item])).map (fun e =>
          match e.kind with
          | FSKind.dir =>
            Node.folder generateId item (readDirGo fs fuel (p ++ [item])) e.btime e.mtime
          | FSKind.file =>
            Node.file generateId item e.size (jsExtension item) (getMimeType item)
              e.btime e.mtime))
      sortByLastUpdate nodes true

/-- `readDirectory` as the handlers invoke it: the recursion budget is
larger than every entry path, so the walk is exhaustive. The source also
threads a relative-path argument through the recursion; it is used only
to build the recursive call's argument and never stored in a node, so it
is omitted here. -/
def readDirectory (fs : FS) (p : List String) : List Node :=
  readDirGo fs (maxPathLen fs + 1) p

/-! ## Request handlers -/

/-- Response of the GET read-tree handler. -/
structure GetResp where
  status : Nat
  success : Bool
  error : Option String
  data : Option Node

/-- The GET read-tree handler: run the initializer on the root, resolve
the target directory, answer 404 when it is absent and 400 when it is not
a directory, and otherwise wrap the recursive read in a synthetic root
node whose id is the requested path (`"root"` for the top-level request)
and whose name is the last split segment of the requested path
(`"user-files"` when that segment is empty, `"My Files"` for the
top-level request). Returns the response together with the filesystem
state after the request. -/
def getHandler (root : List String) (fs : FS) (rp : String) : GetResp × FS :=
  let fs1 := initializeUserFilesDirectory fs root
  let target := root ++ segsOf rp
  match statKind fs1 target with
  | none => (GetResp.mk 404 false (some "Directory not found") none, fs1)
  | some FSKind.file => (GetResp.mk 400 false (some "Path is not a directory") none, fs1)
  | some FSKind.dir =>
    let children := readDirectory fs1 target
    let folderName :=
      if rp ≠ "" then (if lastSplitSeg rp = "" then "user-files" else lastSplitSeg rp)
      else "My Files"
    let node := Node.folder (if rp ≠ "" then rp else "root") folderName children fs1.now fs1.now
    (GetResp.mk 200 true none (some node), fs1)

/-- Body of a POST create-folder request; a missing field is `none`. -/
structure PostBody where
  folderPath : Option JVal
  name : Option JVal

/-- Response of the POST create-folder handler. -/
structure PostResp where
  status : Nat
  success : Bool
  error : Option String
  message : Option String
  data : Option Node

/-- The target directory of a POST create-folder request: the root joined
with the (truthy string) `folderPath` and the trimmed name, or the root
joined with just the trimmed name. -/
def postTarget (root : List String) (fp : Option JVal) (trimmedName : String) : List String :=
  match fp with
  | some (JVal.str s) =>
    if s = "" then root ++ segsOf trimmedName
    else root ++ segsOf s ++ segsOf trimmedName
  | _ => root ++ segsOf trimmedName

/-- The POST create-folder handler: reject a missing / non-string / empty
`name` with 400 before touching the filesystem; run the initializer;
answer 409 when the target already exists as a directory; otherwise
create it recursively, mapping an EEXIST from the create call to the same
409 and any other creation error to 500 (a truthy non-string `folderPath`
also reaches the generic 500 handler, because `path.join` throws on it).
On success answer 200 with a synthetic folder descriptor. -/
def postHandler (root : List String) (fs : FS) (body : PostBody) : PostResp × FS :=
  match body.name with
  | some (JVal.str n) =>
    if n = "" then
      (PostResp.mk 400 false (some "Folder name is required") none none, fs)
    else
      let fs1 := initializeUserFilesDirectory fs root
      match body.folderPath with
      | some (JVal.nonString true) =>
        (PostResp.mk 500 false (some "Failed to create folder") none none, fs1)
      | fp =>
        let target := postTarget root fp (jsTrim n)
        if statKind fs1 target = some FSKind.dir then
          (PostResp.mk 409 false (some "Folder already exists") none none, fs1)
        else
          match mkdirRec fs1 target with
          | Except.error MkdirErr.eexist =>
            (PostResp.mk 409 false (some "Folder already exists") none none, fs1)
          | Except.error MkdirErr.other =>
            (PostResp.mk 500 false (some "Failed to create folder") none none, fs1)
          | Except.ok fs2 =>
            (PostResp.mk 200 true none (some "Folder created successfully")
              (some (Node.folder generateId (jsTrim n) [] fs1.now fs1.now)), fs2)
  | _ => (PostResp.mk 400 false (some "Folder name is required") none none, fs)

/-- Body of a PATCH rename request; a missing field is `none`. -/
structure PatchBody where
  oldPath : Option JVal
  newName : Option JVal

/-- The `data` payload of a successful PATCH rename response. -/
structure RenameData where
  oldPath : String
  newPath : String
  newName : String
deriving DecidableEq

/-- Response of the PATCH rename handler. -/
structure PatchResp where
  status : Nat
  success : Bool
  error : Option String
  message : Option String
  data : Option RenameData
deriving DecidableEq

/-- The PATCH rename handler: 400 for a missing / empty / non-string
`oldPath` or `newName`, 400 for an empty trimmed name, 400 for a
forbidden character in the trimmed name, 404 when the old path does not
exist, 409 when an entry already exists at the parent joined with the new
name, 500 when the rename call itself fails, and otherwise 200 with
`newPath` computed by replacing the first occurrence of
`basename(oldPath)` in `oldPath` with the trimmed name. -/
def patchHandler (root : List String) (fs : FS) (body : PatchBody) : PatchResp × FS :=
  match body.oldPath, body.newName with
  | some (JVal.str p), some (JVal.str n) =>
    if p = "" ∨ n = "" then
      (PatchResp.mk 400 false (some "Old path and new name are required") none none, fs)
    else
      let trimmed := jsTrim n
      if trimmed = "" then
        (PatchResp.mk 400 false (some "New name cannot be empty") none none, fs)
      else if hasInvalidChar trimmed then
        (PatchResp.mk 400 false (some "Name contains invalid characters") none none, fs)
      else
        let fullOld := root ++ segsOf p
        match statKind fs fullOld with
        | none =>
          (PatchResp.mk 404 false (some "File or folder not found") none none, fs)
        | some _ =>
          let fullNew := fullOld.dropLast ++ [trimmed]
          match statKind fs fullNew with
          | some _ =>
            (PatchResp.mk 409 false
              (some "A file or folder with this name already exists") none none, fs)
          | none =>
            if fullOld ∈ fs.failing ∨ fullNew ∈ fs.failing then
              (PatchResp.mk 500 false (some "Failed to rename item") none none, fs)
            else
              (PatchResp.mk 200 true none (some "Item renamed successfully")
                (some (RenameData.mk p (jsReplaceFirst p (nodeBasename p) trimmed) trimmed)),
               renameFS fs fullOld fullNew)
  | _, _ => (PatchResp.mk 400 false (some "Old path and new name are required") none none, fs)

/-! ## Observable tree predicates -/

/-- Checks that consecutive nodes are ordered by `updatedAt` descending. -/
def sortedDescB : List Node → Bool
  | [] => true
  | [_] => true
  | a :: b :: l => decide (b.updatedAt ≤ a.updatedAt) && sortedDescB (b :: l)

mutual

/-- Checks that every `children` sequence in the subtree rooted at a node
is ordered by `updatedAt` descending. -/
def treeSorted : Node → Bool
  | Node.file _ _ _ _ _ _ _ => true
  | Node.folder _ _ children _ _ => sortedDescB children && treeSortedList children

/-- `treeSorted` on every node of a list. -/
def treeSortedList : List Node → Bool
  | [] => true
  | n :: ns => treeSorted n && treeSortedList ns

end

mutual

/-- Checks that a node below directory `p` carries the exact name of an
existing filesystem entry directly under `p`, recursively for the whole
subtree. -/
def namesMatch (fs : FS) : List String → Node → Bool
  | p, Node.file _ nm _ _ _ _ _ => (lookupFS fs (p ++ [nm])).isSome
  | p, Node.folder _ nm children _ _ =>
    (lookupFS fs (p ++ [nm])).isSome && namesMatchList fs (p ++ [nm]) children

/-- `namesMatch` on every node of a list. -/
def namesMatchList (fs : FS) : List String → List Node → Bool
  | _, [] => true
  | p, n :: ns => namesMatch fs p n && namesMatchList fs p ns

end

/-! ## Supporting lemmas -/

theorem insertByUpdateDesc_mem {x n : Node} {l : List Node}
    (h : x ∈ insertByUpdateDesc n l) : x = n ∨ x ∈ l := by
  induction l with
  | nil => simpa [insertByUpdateDesc] using h
  | cons m ms ih =>
    unfold insertByUpdateDesc at h
    by_cases hc : n.updatedAt < m.updatedAt
    · rw [if_pos hc] at h
      rcases List.mem_cons.mp h with h' | h'
      · exact Or.inr (by simp [h'])
      · rcases ih h' with h'' | h''
        · exact Or.inl h''
        · exact Or.inr (List.mem_cons_of_mem _ h'')
    · rw [if_neg hc] at h
      rcases List.mem_cons.mp h with h' | h'
      · exact Or.inl h'
      · exact Or.inr h'

theorem mem_of_mem_sortDesc {x : Node} {l : List Node}
    (h : x ∈ sortByLastUpdate l true) : x ∈ l := by
  have hfold : ∀ l' : List Node, x ∈ l'.foldr insertByUpdateDesc [] → x ∈ l' := by
    intro l'
    induction l' with
    | nil => simp
    | cons n ns ih =>
      intro hx
      rcases insertByUpdateDesc_mem hx with h' | h'
      · simp [h']
      · exact List.mem_cons_of_mem _ (ih h')
  exact hfold l (by simpa [sortByLastUpdate] using h)

theorem sortedDescB_cons_insert (n : Node) : ∀ (ms : List Node) (m : Node),
    n.updatedAt < m.updatedAt → sortedDescB (m :: ms) = true →
    sortedDescB (m :: insertByUpdateDesc n ms) = true := by
  intro ms
  induction ms with
  | nil =>
    intro m hlt _
    simp [insertByUpdateDesc, sortedDescB]
    omega
  | cons k ks ih =>
    intro m hlt hs
    unfold insertByUpdateDesc
    by_cases hc : n.updatedAt < k.updatedAt
    · rw [if_pos hc]
      have hs1 : k.updatedAt ≤ m.updatedAt := by
        simp [sortedDescB] at hs
        tauto
      have hs2 : sortedDescB (k :: ks) = true := by
        simp [sortedDescB] at hs ⊢
        tauto
      have := ih k hc hs2
      simp [sortedDescB, hs1] at this ⊢
      exact this
    · rw [if_neg hc]
      have h1 : k.updatedAt ≤ n.updatedAt := Nat.le_of_not_lt hc
      have h2 : n.updatedAt ≤ m.updatedAt := Nat.le_of_lt hlt
      have hs2 : sortedDescB (k :: ks) = true := by
        simp [sortedDescB] at hs ⊢
        tauto
      simp [sortedDescB, h1, h2] at hs2 ⊢
      exact hs2

theorem sortedDescB_insert (n : Node) (l : List Node) (h : sortedDescB l = true) :
    sortedDescB (insertByUpdateDesc n l) = true := by
  cases l with
  | nil => simp [insertByUpdateDesc, sortedDescB]
  | cons m ms =>
    unfold insertByUpdateDesc
    by_cases hc : n.updatedAt < m.updatedAt
    · rw [if_pos hc]
      exact sortedDescB_cons_insert n ms m hc h
    · rw [if_neg hc]
      have h1 : m.updatedAt ≤ n.updatedAt := Nat.le_of_not_lt hc
      simp [sortedDescB] at h ⊢
      constructor
      · exact h1
      · exact h

theorem sortedDescB_foldr (l : List Node) :
    sortedDescB (l.foldr insertByUpdateDesc []) = true := by
  induction l with
  | nil => simp [sortedDescB]
  | cons n ns ih =>
    simp only [List.foldr_cons]
    exact sortedDescB_insert n _ ih

theorem sortedDescB_sortDesc (l : List Node) :
    sortedDescB (sortByLastUpdate l true) = true :=
  sortedDescB_foldr l

theorem filter_insertByUpdateDesc (t : Nat) (n : Node) (l : List Node) :
    (insertByUpdateDesc n l).filter (fun m => m.updatedAt == t) =
      (if n.updatedAt = t then n :: l.filter (fun m => m.updatedAt == t)
       else l.filter (fun m => m.updatedAt == t)) := by
  induction l with
  | nil =>
    by_cases hnt : n.updatedAt = t <;> simp [insertByUpdateDesc, hnt]
  | cons m ms ih =>
    unfold insertByUpdateDesc
    by_cases hc : n.updatedAt < m.updatedAt
    · rw [if_pos hc]
      by_cases hnt : n.updatedAt = t
      · have hmt : (m.updatedAt == t) = false := by
          simp only [beq_eq_false_iff_ne, ne_eq]
          omega
        simp [List.filter_cons, hmt, ih, hnt]
      · by_cases hmt : m.updatedAt = t <;>
          simp [List.filter_cons, hmt, ih, hnt]
    · rw [if_neg hc]
      by_cases hnt : n.updatedAt = t <;>
        simp [List.filter_cons, hnt]

theorem filter_sortByLastUpdate (t : Nat) (l : List Node) :
    (sortByLastUpdate l true).filter (fun m => m.updatedAt == t) =
      l.filter (fun m => m.updatedAt == t) := by
  have hfold : ∀ l' : List Node,
      (l'.foldr insertByUpdateDesc []).filter (fun m => m.updatedAt == t) =
        l'.filter (fun m => m.updatedAt == t) := by
    intro l'
    induction l' with
    | nil => rfl
    | cons n ns ih =>
      simp only [List.foldr_cons, filter_insertByUpdateDesc, List.filter_cons]
      by_cases hnt : n.updatedAt = t <;> simp [hnt, ih]
  exact hfold l

theorem treeSortedList_iff_mem (l : List Node) :
    treeSortedList l = true ↔ ∀ x ∈ l, treeSorted x = true := by
  induction l with
  | nil => simp [treeSortedList]
  | cons n ns ih =>
    unfold treeSortedList
    rw [Bool.and_eq_true, ih]
    constructor
    · rintro ⟨h1, h2⟩ x hx
      rcases List.mem_cons.mp hx with h | h
      · simpa [h] using h1
      · exact h2 x h
    · intro h
      exact ⟨h n (List.mem_cons_self n ns), fun x hx => h x (List.mem_cons_of_mem _ hx)⟩

theorem sortedDescB_readDirGo (fs : FS) (fuel : Nat) (p : List String) :
    sortedDescB (readDirGo fs fuel p) = true := by
  cases fuel with
  | zero => simp [readDirGo, sortedDescB]
  | succ fuel =>
    unfold readDirGo
    split
    · simp [sortedDescB]
    · exact sortedDescB_sortDesc _

theorem treeSortedList_readDirGo (fs : FS) : ∀ (fuel : Nat) (p : List String),
    treeSortedList (readDirGo fs fuel p) = true := by
  intro fuel
  induction fuel with
  | zero => intro p; simp [readDirGo, treeSortedList]
  | succ fuel ih =>
    intro p
    rw [treeSortedList_iff_mem]
    intro x hx
    unfold readDirGo at hx
    rcases hre : readdirE fs p with u | items
    · rw [hre] at hx; simp at hx
    · rw [hre] at hx
      have hx' := mem_of_mem_sortDesc hx
      rw [List.mem_filterMap] at hx'
      obtain ⟨item, _, hmap⟩ := hx'
      rcases hl : lookupFS fs (p ++ [item]) with _ | e
      · rw [hl] at hmap; simp at hmap
      · rw [hl] at hmap
        simp only [Option.map_some', Option.some.injEq] at hmap
        rcases hk : e.kind with _ | _
        · rw [hk] at hmap
          rw [← hmap]
          simp [treeSorted]
        · rw [hk] at hmap
          rw [← hmap]
          unfold treeSorted
          rw [Bool.and_eq_true]
          exact ⟨sortedDescB_readDirGo fs fuel _, ih _⟩

theorem namesMatchList_iff_mem (fs : FS) (p : List String) (l : List Node) :
    namesMatchList fs p l = true ↔ ∀ x ∈ l, namesMatch fs p x = true := by
  induction l with
  | nil => simp [namesMatchList]
  | cons n ns ih =>
    unfold namesMatchList
    rw [Bool.and_eq_true, ih]
    constructor
    · rintro ⟨h1, h2⟩ x hx
      rcases List.mem_cons.mp hx with h | h
      · simpa [h] using h1
      · exact h2 x h
    · intro h
      exact ⟨h n (List.mem_cons_self n ns), fun x hx => h x (List.mem_cons_of_mem _ hx)⟩

theorem namesMatchList_readDirGo (fs : FS) : ∀ (fuel : Nat) (p : List String),
    namesMatchList fs p (readDirGo fs fuel p) = true := by
  intro fuel
  induction fuel with
  | zero => intro p; simp [readDirGo, namesMatchList]
  | succ fuel ih =>
    intro p
    rw [namesMatchList_iff_mem]
    intro x hx
    unfold readDirGo at hx
    rcases hre : readdirE fs p with u | items
    · rw [hre] at hx; simp at hx
    · rw [hre] at hx
      have hx' := mem_of_mem_sortDesc hx
      rw [List.mem_filterMap] at hx'
      obtain ⟨item, _, hmap⟩ := hx'
      rcases hl : lookupFS fs (p ++ [item]) with _ | e
      · rw [hl] at hmap; simp at hmap
      · rw [hl] at hmap
        simp only [Option.map_some', Option.some.injEq] at hmap
        rcases hk : e.kind with _ | _
        · rw [hk] at hmap
          rw [← hmap]
          unfold namesMatch
          simp [hl]
        · rw [hk] at hmap
          rw [← hmap]
          unfold namesMatch
          rw [Bool.and_eq_true]
          refine ⟨by simp [hl], ih _⟩

/-! ## Claim theorems -/

/-- C5: for every directory read by the Directory Tree Reader, at every
level of the returned tree the children sequence is sorted by `updatedAt`
descending; and the (spec-modelled) `sortByLastUpdate` is stable, so ties
keep the original filesystem enumeration order of the pre-sorted node
list at each level. -/
theorem children_sorted_by_updatedAt_desc :
    (∀ (fs : FS) (fuel : Nat) (p : List String),
      treeSortedList (readDirGo fs fuel p) = true) ∧
    (∀ (l : List Node) (t : Nat),
      (sortByLastUpdate l true).filter (fun m => m.updatedAt == t) =
        l.filter (fun m => m.updatedAt == t)) :=
  ⟨fun fs fuel p => treeSortedList_readDirGo fs fuel p,
   fun l t => filter_sortByLastUpdate t l⟩

/-- C8: every PATCH rename request answered with a non-200 status leaves
the filesystem completely unchanged (the handler performs the rename only
on the unique success path). -/
theorem rename_failure_leaves_fs_unchanged (root : List String) (fs : FS) (body : PatchBody)
    (h : (patchHandler root fs body).1.status ≠ 200) :
    (patchHandler root fs body).2 = fs := by
  obtain ⟨op, nn⟩ := body
  rcases op with _ | v
  · simp [patchHandler]
  rcases v with p | b
  · rcases nn with _ | w
    · simp [patchHandler]
    rcases w with n | b'
    · by_cases h1 : p = "" ∨ n = ""
      · simp [patchHandler, h1]
      by_cases h2 : jsTrim n = ""
      · simp [patchHandler, h1, h2]
      by_cases h3 : hasInvalidChar (jsTrim n) = true
      · simp [patchHandler, h1, h2, h3]
      rcases h4 : statKind fs (root ++ segsOf p) with _ | k
      · simp [patchHandler, h1, h2, h3, h4]
      rcases h5 : statKind fs ((root ++ segsOf p).dropLast ++ [jsTrim n]) with _ | k2
      · by_cases h6 : root ++ segsOf p ∈ fs.failing ∨
            (root ++ segsOf p).dropLast ++ [jsTrim n] ∈ fs.failing
        · simp [patchHandler, h1, h2, h3, h4, h5, h6]
        · exfalso
          apply h
          simp [patchHandler, h1, h2, h3, h4, h5, h6]
      · simp [patchHandler, h1, h2, h3, h4, h5]
    · simp [patchHandler]
  · simp [patchHandler]

/-- Witness for C8 at a concrete request: a body with both fields missing
is answered 400 and the filesystem is untouched. -/
theorem rename_failure_leaves_fs_unchanged_witness :
    (patchHandler ["u"] (FS.mk [] [] 0) (PatchBody.mk none none)).1.status ≠ 200 ∧
    (patchHandler ["u"] (FS.mk [] [] 0) (PatchBody.mk none none)).2 = FS.mk [] [] 0 :=
  ⟨by decide,
   rename_failure_leaves_fs_unchanged ["u"] (FS.mk [] [] 0) (PatchBody.mk none none) (by decide)⟩

/-- C9: a PATCH rename whose trimmed new name equals the entry's current
final path segment is answered 409 with the already-exists message (the
computed new path coincides with the existing source path), not treated
as a successful no-op; the filesystem is left unchanged. -/
theorem rename_to_own_name_conflicts (root : List String) (fs : FS) (p n : String)
    (hp : p ≠ "") (hn : n ≠ "")
    (hInv : hasInvalidChar (jsTrim n) = false)
    (hLast : (segsOf p).getLast? = some (jsTrim n))
    (hEx : (statKind fs (root ++ segsOf p)).isSome = true) :
    (patchHandler root fs (PatchBody.mk (some (JVal.str p)) (some (JVal.str n)))).1.status = 409 ∧
    (patchHandler root fs (PatchBody.mk (some (JVal.str p)) (some (JVal.str n)))).1.error =
      some "A file or folder with this name already exists" ∧
    (patchHandler root fs (PatchBody.mk (some (JVal.str p)) (some (JVal.str n)))).2 = fs := by
  have hmem : jsTrim n ∈ segsOf p := List.mem_of_getLast?_eq_some hLast
  have htr : jsTrim n ≠ "" := by
    have := List.of_mem_filter (p := fun t => t ≠ "") (by simpa [segsOf] using hmem)
    simpa using this
  have hNe : segsOf p ≠ [] := List.ne_nil_of_mem hmem
  have key : (root ++ segsOf p).dropLast ++ [jsTrim n] = root ++ segsOf p := by
    rw [List.dropLast_append_of_ne_nil _ hNe, List.append_assoc]
    congr 1
    exact List.dropLast_append_getLast? (jsTrim n) (by simp [hLast, Option.mem_def])
  obtain ⟨k, hk⟩ := Option.isSome_iff_exists.mp hEx
  have h1 : ¬(p = "" ∨ n = "") := by tauto
  simp [patchHandler, h1, htr, hInv, key, hk]

/-- Witness for C9: renaming the folder `Notes` to `Notes` on a
filesystem containing `u/Notes` is answered 409 with the already-exists
message and changes nothing. -/
theorem rename_to_own_name_conflicts_witness :
    (patchHandler ["u"] (FS.mk [FSEntry.mk ["u", "Notes"] FSKind.dir 0 0 0] [] 0)
      (PatchBody.mk (some (JVal.str "Notes")) (some (JVal.str "Notes")))).1.status = 409 ∧
    (patchHandler ["u"] (FS.mk [FSEntry.mk ["u", "Notes"] FSKind.dir 0 0 0] [] 0)
      (PatchBody.mk (some (JVal.str "Notes")) (some (JVal.str "Notes")))).1.error =
      some "A file or folder with this name already exists" ∧
    (patchHandler ["u"] (FS.mk [FSEntry.mk ["u", "Notes"] FSKind.dir 0 0 0] [] 0)
      (PatchBody.mk (some (JVal.str "Notes")) (some (JVal.str "Notes")))).2 =
      FS.mk [FSEntry.mk ["u", "Notes"] FSKind.dir 0 0 0] [] 0 :=
  rename_to_own_name_conflicts ["u"] (FS.mk [FSEntry.mk ["u", "Notes"] FSKind.dir 0 0 0] [] 0)
    "Notes" "Notes" (by decide) (by decide) (by decide) (by decide) (by decide)

/-- C10: a POST create-folder request whose target exists as a file slips
past the directory pre-check, the recursive create reports EEXIST, and
the handler answers 409 with the folder-already-exists message instead of
500; the filesystem stays as the initializer left it. -/
theorem create_folder_on_existing_file_conflicts (root : List String) (fs : FS)
    (fp : Option JVal) (n : String) (hn : n ≠ "")
    (hfp : fp ≠ some (JVal.nonString true))
    (hfile : statKind (initializeUserFilesDirectory fs root)
      (postTarget root fp (jsTrim n)) = some FSKind.file)
    (hfail : postTarget root fp (jsTrim n) ∉ (initializeUserFilesDirectory fs root).failing) :
    (postHandler root fs (PostBody.mk fp (some (JVal.str n)))).1.status = 409 ∧
    (postHandler root fs (PostBody.mk fp (some (JVal.str n)))).1.error =
      some "Folder already exists" ∧
    (postHandler root fs (PostBody.mk fp (some (JVal.str n)))).2 =
      initializeUserFilesDirectory fs root := by
  have hmk : mkdirRec (initializeUserFilesDirectory fs root) (postTarget root fp (jsTrim n)) =
      Except.error MkdirErr.eexist := by
    unfold mkdirRec
    rw [if_neg hfail, hfile]
  rcases fp with _ | v
  · simp [postHandler, hn, hfile, hmk]
  · rcases v with s | b
    · simp [postHandler, hn, hfile, hmk]
    · cases b with
      | false => simp [postHandler, hn, hfile, hmk]
      | true => exact absurd rfl hfp

/-- Witness for C10: creating folder `x` where `u/x` is an existing file
is answered 409 with the folder-already-exists message. -/
theorem create_folder_on_existing_file_conflicts_witness :
    (postHandler ["u"]
      (FS.mk [FSEntry.mk ["u"] FSKind.dir 0 0 0, FSEntry.mk ["u", "x"] FSKind.file 0 0 3] [] 0)
      (PostBody.mk none (some (JVal.str "x")))).1.status = 409 ∧
    (postHandler ["u"]
      (FS.mk [FSEntry.mk ["u"] FSKind.dir 0 0 0, FSEntry.mk ["u", "x"] FSKind.file 0 0 3] [] 0)
      (PostBody.mk none (some (JVal.str "x")))).1.error = some "Folder already exists" ∧
    (postHandler ["u"]
      (FS.mk [FSEntry.mk ["u"] FSKind.dir 0 0 0, FSEntry.mk ["u", "x"] FSKind.file 0 0 3] [] 0)
      (PostBody.mk none (some (JVal.str "x")))).2 =
      initializeUserFilesDirectory
        (FS.mk [FSEntry.mk ["u"] FSKind.dir 0 0 0, FSEntry.mk ["u", "x"] FSKind.file 0 0 3] [] 0)
        ["u"] :=
  create_folder_on_existing_file_conflicts ["u"]
    (FS.mk [FSEntry.mk ["u"] FSKind.dir 0 0 0, FSEntry.mk ["u", "x"] FSKind.file 0 0 3] [] 0)
    none "x" (by decide) (by decide) (by decide) (by decide)

/-- C1 (corrected): a POST create-folder request whose body `name` is
missing, not a string, or the empty string is rejected with 400 before
any filesystem operation, so the filesystem is unchanged. (A nonempty
whitespace-only name passes the source's validation, see the
counterexample.) -/
theorem create_folder_invalid_name_rejected (root : List String) (fs : FS) (body : PostBody)
    (h : ∀ s, body.name = some (JVal.str s) → s = "") :
    (postHandler root fs body).1.status = 400 ∧ (postHandler root fs body).2 = fs := by
  obtain ⟨fp, nm⟩ := body
  rcases nm with _ | v
  · simp [postHandler]
  · rcases v with s | b
    · have hs : s = "" := h s rfl
      subst hs
      simp [postHandler]
    · simp [postHandler]

/-- Counterexample for C1 as stated: a whitespace-only name `" "` is not
answered 400 — the handler proceeds, the initializer creates the root and
the seeded `Documents` folder, and the response is 409 because the target
collapses to the (just created) root directory itself. -/
theorem create_folder_whitespace_name_counterexample :
    jsTrim " " = "" ∧
    (postHandler ["public", "user-files"] (FS.mk [] [] 0)
      (PostBody.mk none (some (JVal.str " ")))).1.status = 409 ∧
    (postHandler ["public", "user-files"] (FS.mk [] [] 0)
      (PostBody.mk none (some (JVal.str " ")))).1.status ≠ 400 ∧
    statKind (postHandler ["public", "user-files"] (FS.mk [] [] 0)
      (PostBody.mk none (some (JVal.str " ")))).2 ["public", "user-files", "Documents"] =
      some FSKind.dir ∧
    (postHandler ["public", "user-files"] (FS.mk [] [] 0)
      (PostBody.mk none (some (JVal.str " ")))).2 ≠ FS.mk [] [] 0 := by
  refine ⟨by decide, by decide, by decide, by decide, by decide⟩

/-- Witness for C1: the empty-string name is answered 400 and the
filesystem is untouched. -/
theorem create_folder_invalid_name_rejected_witness :
    (postHandler ["u"] (FS.mk [] [] 0) (PostBody.mk none (some (JVal.str "")))).1.status = 400 ∧
    (postHandler ["u"] (FS.mk [] [] 0) (PostBody.mk none (some (JVal.str "")))).2 =
      FS.mk [] [] 0 :=
  create_folder_invalid_name_rejected ["u"] (FS.mk [] [] 0)
    (PostBody.mk none (some (JVal.str "")))
    (fun s hs => (JVal.str.inj (Option.some.inj hs)).symm)

/-- C2 (code bug): the reader computes a file's `extension` as the last
dot-separated chunk of the name lowercased; for a dot-less filename such
as `README` this is the whole name lowercased (`"readme"`), not the empty
string the specification requires. -/
theorem extension_of_dotless_filename :
    jsExtension "README" = "readme" ∧
    jsExtension "README" ≠ "" ∧
    ("README".data.contains '.') = false ∧
    readDirGo (FS.mk [FSEntry.mk ["u"] FSKind.dir 0 0 0,
        FSEntry.mk ["u", "README"] FSKind.file 0 0 5] [] 0) 2 ["u"] =
      [Node.file "generated-id" "README" 5 "readme" "application/octet-stream" 0 0] :=
  ⟨by decide, by decide, by decide, rfl⟩

/-- C6: a directory whose `readdir` fails (permission denied, removed
mid-walk) contributes an empty child sequence instead of propagating the
error, and the enclosing GET request still succeeds (status 200) whenever
its target directory itself stats as a directory. -/
theorem failing_directory_degrades_to_empty :
    (∀ (fs : FS) (fuel : Nat) (p : List String),
      p ∈ fs.failing → readDirGo fs fuel p = []) ∧
    (∀ (root : List String) (fs : FS) (rp : String),
      statKind (initializeUserFilesDirectory fs root) (root ++ segsOf rp) = some FSKind.dir →
      (getHandler root fs rp).1.status = 200 ∧ (getHandler root fs rp).1.success = true) := by
  constructor
  · intro fs fuel p hp
    cases fuel with
    | zero => rfl
    | succ fuel =>
      have hre : readdirE fs p = Except.error () := by
        unfold readdirE
        rw [if_pos hp]
      unfold readDirGo
      rw [hre]
  · intro root fs rp h
    simp [getHandler, h]

/-- Witness for C6: reading the failing directory `u/d` yields no
children, while the GET request on the root above it still answers 200. -/
theorem failing_directory_degrades_to_empty_witness :
    readDirGo (FS.mk [FSEntry.mk ["u"] FSKind.dir 0 0 0, FSEntry.mk ["u", "d"] FSKind.dir 0 0 0,
      FSEntry.mk ["u", "d", "f"] FSKind.file 0 0 1] [["u", "d"]] 0) 5 ["u", "d"] = [] ∧
    (getHandler ["u"] (FS.mk [FSEntry.mk ["u"] FSKind.dir 0 0 0,
      FSEntry.mk ["u", "d"] FSKind.dir 0 0 0,
      FSEntry.mk ["u", "d", "f"] FSKind.file 0 0 1] [["u", "d"]] 0) "").1.status = 200 :=
  ⟨(failing_directory_degrades_to_empty.1
      (FS.mk [FSEntry.mk ["u"] FSKind.dir 0 0 0, FSEntry.mk ["u", "d"] FSKind.dir 0 0 0,
        FSEntry.mk ["u", "d", "f"] FSKind.file 0 0 1] [["u", "d"]] 0) 5 ["u", "d"] (by decide)),
   (failing_directory_degrades_to_empty.2 ["u"]
      (FS.mk [FSEntry.mk ["u"] FSKind.dir 0 0 0, FSEntry.mk ["u", "d"] FSKind.dir 0 0 0,
        FSEntry.mk ["u", "d", "f"] FSKind.file 0 0 1] [["u", "d"]] 0) "" (by decide)).1⟩

/-- C4 (corrected): every node produced by the Directory Tree Reader
carries the exact (case-sensitive) name of an existing filesystem entry
at its position; the synthetic root node, however, is named by the last
split segment of the requested path, `"user-files"` when that segment is
empty, and `"My Files"` for the top-level request — not by its
filesystem entry name. -/
theorem node_names_match_entries_except_root :
    (∀ (fs : FS) (fuel : Nat) (p : List String),
      namesMatchList fs p (readDirGo fs fuel p) = true) ∧
    (∀ (root : List String) (fs : FS) (rp : String) (node : Node),
      (getHandler root fs rp).1.data = some node →
      node.name = (if rp ≠ "" then
        (if lastSplitSeg rp = "" then "user-files" else lastSplitSeg rp) else "My Files")) := by
  constructor
  · exact fun fs fuel p => namesMatchList_readDirGo fs fuel p
  · intro root fs rp node h
    simp only [getHandler] at h
    rcases hs : statKind (initializeUserFilesDirectory fs root) (root ++ segsOf rp) with _ | k
    · rw [hs] at h
      simp at h
    · rcases k with _ | _
      · rw [hs] at h
        simp at h
      · rw [hs] at h
        simp only [Option.some.injEq] at h
        rw [← h]
        simp [Node.name]

/-- Counterexample for C4 as stated: the synthetic root of a top-level
GET is named `"My Files"`, while its filesystem entry is the directory
`user-files`. -/
theorem root_node_named_my_files_counterexample :
    ((getHandler ["public", "user-files"] (FS.mk [] [] 0) "").1.data).map Node.name =
      some "My Files" ∧
    (["public", "user-files"] : List String).getLast? = some "user-files" ∧
    ("My Files" : String) ≠ "user-files" :=
  ⟨rfl, by decide, by decide⟩

/-- Witness for C4: on a concrete filesystem the reader's names all match
entries, and the top-level synthetic root is named `"My Files"`. -/
theorem node_names_match_entries_except_root_witness :
    namesMatchList (FS.mk [FSEntry.mk ["u"] FSKind.dir 0 0 0,
        FSEntry.mk ["u", "f.txt"] FSKind.file 0 3 2] [] 0) ["u"]
      (readDirGo (FS.mk [FSEntry.mk ["u"] FSKind.dir 0 0 0,
        FSEntry.mk ["u", "f.txt"] FSKind.file 0 3 2] [] 0) 2 ["u"]) = true ∧
    Node.name (Node.folder "root" "My Files"
      [Node.file "generated-id" "f.txt" 2 "txt" "application/octet-stream" 0 3] 0 0) =
      "My Files" :=
  ⟨node_names_match_entries_except_root.1
      (FS.mk [FSEntry.mk ["u"] FSKind.dir 0 0 0,
        FSEntry.mk ["u", "f.txt"] FSKind.file 0 3 2] [] 0) 2 ["u"],
   node_names_match_entries_except_root.2 ["u"]
      (FS.mk [FSEntry.mk ["u"] FSKind.dir 0 0 0,
        FSEntry.mk ["u", "f.txt"] FSKind.file 0 3 2] [] 0) ""
      (Node.folder "root" "My Files"
        [Node.file "generated-id" "f.txt" 2 "txt" "application/octet-stream" 0 3] 0 0) rfl⟩

/-! ## String-replacement lemmas for the rename response -/

theorem isPrefixOf_self {α : Type} [BEq α] [LawfulBEq α] (l : List α) :
    l.isPrefixOf l = true := by
  induction l with
  | nil => rfl
  | cons a as ih => simp [List.isPrefixOf, ih]

theorem containsSub_nil (l : List Char) : containsSub [] l = true := by
  cases l <;> simp [containsSub, List.isPrefixOf]

theorem dropLast_cons_ne_nil {α : Type} (c : α) {t : List α} (h : t ≠ []) :
    (c :: t).dropLast = c :: t.dropLast := by
  cases t with
  | nil => exact absurd rfl h
  | cons z zs => rfl

theorem isPrefixOf_dropLast : ∀ (pat l : List Char), pat.isPrefixOf l = true →
    pat.length + 1 ≤ l.length → pat.isPrefixOf l.dropLast = true := by
  intro pat
  induction pat with
  | nil =>
    intro l _ _
    cases l.dropLast <;> rfl
  | cons a pa ih =>
    intro l hpre hlen
    cases l with
    | nil => simp at hlen
    | cons b lb =>
      simp only [List.isPrefixOf, Bool.and_eq_true] at hpre
      cases lb with
      | nil => simp at hlen
      | cons z zs =>
        rw [dropLast_cons_ne_nil b (by simp)]
        simp only [List.isPrefixOf, Bool.and_eq_true]
        refine ⟨hpre.1, ih (z :: zs) hpre.2 ?_⟩
        simp only [List.length_cons] at hlen ⊢
        omega

theorem getSubstitution_no_dollar (m b a : List Char) : ∀ (rep : List Char),
    ('$' : Char) ∉ rep → getSubstitution m b a rep = rep := by
  intro rep
  induction rep with
  | nil => intro _; rfl
  | cons c rest ih =>
    intro h
    have hc : ¬(c = '$') := fun hcon => h (hcon ▸ List.mem_cons_self c rest)
    cases rest with
    | nil => rfl
    | cons d rest2 =>
      unfold getSubstitution
      rw [if_neg hc, ih (fun hm => h (List.mem_cons_of_mem c hm))]

theorem replaceFirstAux_append : ∀ (pre pat rep seen : List Char), pat ≠ [] →
    containsSub pat (pre ++ pat).dropLast = false →
    replaceFirstAux pat rep seen (pre ++ pat) =
      pre ++ getSubstitution pat (seen.reverse ++ pre) [] rep := by
  intro pre
  induction pre with
  | nil =>
    intro pat rep seen hne _
    cases pat with
    | nil => exact absurd rfl hne
    | cons a pa =>
      simp only [List.nil_append, replaceFirstAux]
      rw [if_pos (isPrefixOf_self (a :: pa))]
      rw [List.drop_length]
      simp
  | cons c pre' ih =>
    intro pat rep seen hne hsub
    have hz : pre' ++ pat ≠ [] := by
      intro hcontra
      exact hne (List.append_eq_nil.mp hcontra).2
    rw [List.cons_append] at hsub ⊢
    rw [dropLast_cons_ne_nil c hz] at hsub
    simp only [containsSub, Bool.or_eq_false_iff] at hsub
    obtain ⟨hsub1, hsub2⟩ := hsub
    by_cases hpre : pat.isPrefixOf (c :: (pre' ++ pat)) = true
    · exfalso
      have hlen : pat.length + 1 ≤ (c :: (pre' ++ pat)).length := by
        simp [List.length_cons, List.length_append]
      have hd := isPrefixOf_dropLast pat _ hpre hlen
      rw [dropLast_cons_ne_nil c hz] at hd
      rw [hd] at hsub1
      cases hsub1
    · simp only [replaceFirstAux]
      rw [if_neg hpre, ih pat rep (c :: seen) hne hsub2]
      rw [List.reverse_cons, List.append_assoc]
      rfl

theorem patch_success_data (root : List String) (fs : FS) (p n : String)
    (h200 : (patchHandler root fs
      (PatchBody.mk (some (JVal.str p)) (some (JVal.str n)))).1.status = 200) :
    (patchHandler root fs (PatchBody.mk (some (JVal.str p)) (some (JVal.str n)))).1.data =
      some (RenameData.mk p (jsReplaceFirst p (nodeBasename p) (jsTrim n)) (jsTrim n)) := by
  by_cases h1 : p = "" ∨ n = ""
  · simp [patchHandler, h1] at h200
  by_cases h2 : jsTrim n = ""
  · simp [patchHandler, h1, h2] at h200
  by_cases h3 : hasInvalidChar (jsTrim n) = true
  · simp [patchHandler, h1, h2, h3] at h200
  rcases h4 : statKind fs (root ++ segsOf p) with _ | k
  · simp [patchHandler, h1, h2, h3, h4] at h200
  rcases h5 : statKind fs ((root ++ segsOf p).dropLast ++ [jsTrim n]) with _ | k2
  · by_cases h6 : root ++ segsOf p ∈ fs.failing ∨
        (root ++ segsOf p).dropLast ++ [jsTrim n] ∈ fs.failing
    · simp [patchHandler, h1, h2, h3, h4, h5, h6] at h200
    · simp [patchHandler, h1, h2, h3, h4, h5, h6]
  · simp [patchHandler, h1, h2, h3, h4, h5] at h200

/-- C3 (corrected): on a successful PATCH rename, `newPath` is `oldPath`
with the FIRST substring occurrence of `basename(oldPath)` replaced by
the ECMAScript dollar-pattern expansion of the trimmed new name (the
validator admits the dollar sign, and JavaScript `String.replace`
expands dollar patterns even for string patterns); when the trimmed new
name contains no dollar sign, the expansion is the trimmed name itself,
so `newPath` is the prefix before the basename followed by the trimmed
new name — which coincides with replacing the final path segment
whenever the basename's only occurrence in `oldPath` is its
final-segment position. -/
theorem rename_newPath_replaces_first_occurrence (root : List String) (fs : FS)
    (p n : String) (pre : List Char)
    (h200 : (patchHandler root fs
      (PatchBody.mk (some (JVal.str p)) (some (JVal.str n)))).1.status = 200)
    (hsplit : p.data = pre ++ (nodeBasename p).data)
    (hocc : containsSub (nodeBasename p).data p.data.dropLast = false) :
    (patchHandler root fs (PatchBody.mk (some (JVal.str p)) (some (JVal.str n)))).1.data =
      some (RenameData.mk p
        (String.mk (pre ++ getSubstitution (nodeBasename p).data pre [] (jsTrim n).data))
        (jsTrim n)) ∧
    (('$' : Char) ∉ (jsTrim n).data →
      (patchHandler root fs (PatchBody.mk (some (JVal.str p)) (some (JVal.str n)))).1.data =
        some (RenameData.mk p (String.mk (pre ++ (jsTrim n).data)) (jsTrim n))) := by
  have hne : (nodeBasename p).data ≠ [] := by
    intro hcontra
    rw [hcontra, containsSub_nil] at hocc
    cases hocc
  have hrepl : jsReplaceFirst p (nodeBasename p) (jsTrim n) =
      String.mk (pre ++ getSubstitution (nodeBasename p).data pre [] (jsTrim n).data) := by
    unfold jsReplaceFirst
    rw [if_neg (by simpa using hne)]
    congr 1
    calc replaceFirstAux (nodeBasename p).data (jsTrim n).data [] p.data
        = replaceFirstAux (nodeBasename p).data (jsTrim n).data []
            (pre ++ (nodeBasename p).data) := by rw [← hsplit]
      _ = pre ++ getSubstitution (nodeBasename p).data
            (([] : List Char).reverse ++ pre) [] (jsTrim n).data := by
          apply replaceFirstAux_append pre _ _ [] hne
          rw [← hsplit]
          exact hocc
      _ = pre ++ getSubstitution (nodeBasename p).data pre [] (jsTrim n).data := by
          rw [List.reverse_nil, List.nil_append]
  constructor
  · rw [patch_success_data root fs p n h200, hrepl]
  · intro hnd
    rw [patch_success_data root fs p n h200, hrepl,
      getSubstitution_no_dollar _ _ _ _ hnd]

/-- Counterexample for C3 as stated: renaming `Notes/Notes` to `Work`
succeeds with 200, but the reported `newPath` is `Work/Notes` — the
first occurrence of the basename `Notes` was replaced — instead of
`Notes/Work`, the final-segment replacement the claim asserts for every
`oldPath`. -/
theorem rename_newPath_repeated_segment_counterexample :
    (patchHandler ["u"] (FS.mk [FSEntry.mk ["u", "Notes"] FSKind.dir 0 0 0,
        FSEntry.mk ["u", "Notes", "Notes"] FSKind.dir 0 0 0] [] 0)
      (PatchBody.mk (some (JVal.str "Notes/Notes")) (some (JVal.str "Work")))).1.status = 200 ∧
    ((patchHandler ["u"] (FS.mk [FSEntry.mk ["u", "Notes"] FSKind.dir 0 0 0,
        FSEntry.mk ["u", "Notes", "Notes"] FSKind.dir 0 0 0] [] 0)
      (PatchBody.mk (some (JVal.str "Notes/Notes")) (some (JVal.str "Work")))).1.data).map
        (fun d => d.newPath) = some "Work/Notes" ∧
    ("Work/Notes" : String) ≠ "Notes/Work" :=
  ⟨by decide, by decide, by decide⟩

/-- Witness for C3: renaming the single-segment path `Notes` to the
dollar-free name `Work` reports `newPath = "Work"`, the final-segment
replacement. -/
theorem rename_newPath_replaces_first_occurrence_witness :
    (patchHandler ["u"] (FS.mk [FSEntry.mk ["u", "Notes"] FSKind.dir 0 0 0] [] 0)
      (PatchBody.mk (some (JVal.str "Notes")) (some (JVal.str "Work")))).1.data =
      some (RenameData.mk "Notes" "Work" "Work") :=
  (rename_newPath_replaces_first_occurrence ["u"]
    (FS.mk [FSEntry.mk ["u", "Notes"] FSKind.dir 0 0 0] [] 0)
    "Notes" "Work" [] (by decide) (by decide) (by decide)).2 (by decide)

/-! ## Initializer lemmas -/

theorem isPrefixOf_append_self {α : Type} [BEq α] [LawfulBEq α] (l t : List α) :
    l.isPrefixOf (l ++ t) = true := by
  induction l with
  | nil => cases t <;> rfl
  | cons a as ih => simp [List.isPrefixOf, ih]

theorem isPrefixOf_length_le {α : Type} [BEq α] [LawfulBEq α] :
    ∀ (a b : List α), a.isPrefixOf b = true → a.length ≤ b.length := by
  intro a
  induction a with
  | nil => intro b _; simp
  | cons x xs ih =>
    intro b h
    cases b with
    | nil => simp [List.isPrefixOf] at h
    | cons y ys =>
      simp only [List.isPrefixOf, Bool.and_eq_true] at h
      simp only [List.length_cons]
      have := ih ys h.2
      omega

theorem isPrefixOf_trans {α : Type} [BEq α] [LawfulBEq α] :
    ∀ (a b c : List α), a.isPrefixOf b = true → b.isPrefixOf c = true →
      a.isPrefixOf c = true := by
  intro a
  induction a with
  | nil => intro b c _ _; cases c <;> rfl
  | cons x xs ih =>
    intro b c hab hbc
    cases b with
    | nil => simp [List.isPrefixOf] at hab
    | cons y ys =>
      cases c with
      | nil => simp [List.isPrefixOf] at hbc
      | cons z zs =>
        simp only [List.isPrefixOf, Bool.and_eq_true, beq_iff_eq] at hab hbc ⊢
        exact ⟨hab.1.trans hbc.1, ih ys zs hab.2 hbc.2⟩

theorem mem_ancestors {q p : List String} :
    q ∈ ancestors p ↔ ∃ k, k ≤ p.length ∧ q = p.take k := by
  unfold ancestors
  rw [List.mem_map]
  constructor
  · rintro ⟨k, hk, hq⟩
    rw [List.mem_range] at hk
    exact ⟨k, by omega, hq.symm⟩
  · rintro ⟨k, hk, rfl⟩
    exact ⟨k, List.mem_range.mpr (by omega), rfl⟩

theorem self_mem_ancestors (p : List String) : p ∈ ancestors p :=
  mem_ancestors.mpr ⟨p.length, Nat.le_refl _, (List.take_length p).symm⟩

theorem mem_ancestors_length {q p : List String} (h : q ∈ ancestors p) :
    q.length ≤ p.length := by
  obtain ⟨k, hk, rfl⟩ := mem_ancestors.mp h
  rw [List.length_take]
  exact Nat.min_le_right k p.length

theorem ancestors_append_singleton (p : List String) (x : String) :
    ancestors (p ++ [x]) = ancestors p ++ [p ++ [x]] := by
  unfold ancestors
  have hlen : (p ++ [x]).length = p.length + 1 := by simp
  rw [hlen, List.range_succ, List.map_append]
  congr 1
  · apply List.map_congr_left
    intro k hk
    rw [List.mem_range] at hk
    exact List.take_append_of_le_length (by omega)
  · have : (p ++ [x]).take (p.length + 1) = p ++ [x] := by
      rw [← hlen, List.take_length]
    simp [this]

theorem find?_map_dirEntry (L : List (List String)) (now : Nat) (q : List String) :
    ((L.map (fun r => FSEntry.mk r FSKind.dir now now 0)).find? (fun e => e.path == q)) =
      (if q ∈ L then some (FSEntry.mk q FSKind.dir now now 0) else none) := by
  induction L with
  | nil => simp
  | cons r rs ih =>
    simp only [List.map_cons, List.find?_cons]
    by_cases hr : r = q
    · subst hr
      simp
    · have hbeq : ((FSEntry.mk r FSKind.dir now now 0).path == q) = false := by
        simpa using hr
      rw [hbeq]
      simp only [List.mem_cons, ih]
      by_cases hm : q ∈ rs
      · simp [hm]
      · have hqr : ¬q = r := fun h => hr h.symm
        simp [hm, hqr]

theorem statKind_append_dirs (fs : FS) (L : List (List String)) (q : List String) :
    statKind (FS.mk
        (fs.entries ++ L.map (fun r => FSEntry.mk r FSKind.dir fs.now fs.now 0))
        fs.failing fs.now) q =
      ((statKind fs q).or (if q ∈ L then some FSKind.dir else none)) := by
  unfold statKind lookupFS
  simp only [List.find?_append, find?_map_dirEntry]
  rcases hf : fs.entries.find? (fun e => e.path == q) with _ | e
  · by_cases hq : q ∈ L <;> simp [hf, hq]
  · simp [hf]

theorem childNames_mk_append (es es' : List FSEntry) (f : List (List String)) (n : Nat)
    (p : List String) :
    childNames (FS.mk (es ++ es') f n) p =
      childNames (FS.mk es f n) p ++ childNames (FS.mk es' f n) p := by
  unfold childNames
  simp [List.filterMap_append]

theorem childNames_nil_short {es : List FSEntry} {f : List (List String)} {n : Nat}
    {p : List String} (h : ∀ e ∈ es, e.path.length ≤ p.length) :
    childNames (FS.mk es f n) p = [] := by
  unfold childNames
  rw [List.filterMap_eq_nil_iff]
  intro e he
  have hlen : e.path.length ≠ p.length + 1 := by
    have := h e he
    omega
  simp [hlen]

theorem childNames_entries_orph {es : List FSEntry} {f : List (List String)} {n : Nat}
    {root p : List String}
    (hOrph : ∀ e ∈ es, root.isPrefixOf e.path = false ∨ e.path = root)
    (hrp : root.isPrefixOf p = true) :
    childNames (FS.mk es f n) p = [] := by
  unfold childNames
  rw [List.filterMap_eq_nil_iff]
  intro e he
  by_cases hc : e.path.length = p.length + 1 ∧ p.isPrefixOf e.path = true
  · exfalso
    have hroot : root.isPrefixOf e.path = true := isPrefixOf_trans root p e.path hrp hc.2
    rcases hOrph e he with horp | horp
    · rw [hroot] at horp
      cases horp
    · have h1 := isPrefixOf_length_le root p hrp
      have h2 : e.path.length = root.length := by rw [horp]
      omega
  · rcases Decidable.not_and_iff_or_not.mp hc with hne | hne
    · simp [hne]
    · have hne' : p.isPrefixOf e.path = false := by
        cases hh : p.isPrefixOf e.path
        · rfl
        · exact absurd hh hne
      simp [hne']

theorem childNames_single_child (root : List String) (x : String) (kd : FSKind)
    (b m sz : Nat) (f : List (List String)) (n : Nat) :
    childNames (FS.mk [FSEntry.mk (root ++ [x]) kd b m sz] f n) root = [x] := by
  unfold childNames
  have h1 : (root ++ [x]).length = root.length + 1 := by simp
  have h2 : root.isPrefixOf (root ++ [x]) = true := isPrefixOf_append_self root [x]
  simp [List.filterMap_cons, h1, h2, List.getLast?_concat]

theorem childNames_entries_only (fs : FS) (f : List (List String)) (n : Nat)
    (p : List String) : childNames (FS.mk fs.entries f n) p = childNames fs p := rfl

theorem mkdirRec_ok_shape {fs fs' : FS} {p : List String}
    (h : mkdirRec fs p = Except.ok fs') :
    fs'.failing = fs.failing ∧ fs'.now = fs.now ∧
    ∃ L : List (List String), (∀ r ∈ L, r ∈ ancestors p) ∧
      fs'.entries = fs.entries ++ L.map (fun r => FSEntry.mk r FSKind.dir fs.now fs.now 0) := by
  unfold mkdirRec at h
  by_cases hf : p ∈ fs.failing
  · rw [if_pos hf] at h
    cases h
  rw [if_neg hf] at h
  rcases hst : statKind fs p with _ | k
  · rw [hst] at h
    by_cases hany : ((ancestors p).any (fun q => statKind fs q == some FSKind.file)) = true
    · rw [if_pos hany] at h
      cases h
    · rw [if_neg hany] at h
      have h' := Except.ok.inj h
      rw [← h']
      refine ⟨rfl, rfl, (ancestors p).filter (fun q => !q.isEmpty && statKind fs q == none),
        ?_, rfl⟩
      intro r hr
      exact (List.mem_filter.mp hr).1
  · rcases k with _ | _
    · rw [hst] at h
      cases h
    · rw [hst] at h
      have h' := Except.ok.inj h
      rw [← h']
      exact ⟨rfl, rfl, [], by simp, by simp⟩

theorem statKind_mkdirRec_some {a b : FS} {p q : List String} {k : FSKind}
    (hmk : mkdirRec a p = Except.ok b) (h : statKind a q = some k) :
    statKind b q = some k := by
  obtain ⟨hfl, hn, L, hLmem, hent⟩ := mkdirRec_ok_shape hmk
  have hb : statKind b q =
      statKind (FS.mk (a.entries ++ L.map (fun r => FSEntry.mk r FSKind.dir a.now a.now 0))
        a.failing a.now) q := by
    unfold statKind lookupFS
    rw [hent]
  rw [hb, statKind_append_dirs a L q, h]
  rfl

theorem statKind_init_of_mkdir {fs fs1 : FS} {root q : List String} {k : FSKind}
    (hmk : mkdirRec fs root = Except.ok fs1)
    (h : statKind fs1 q = some k) :
    statKind (initializeUserFilesDirectory fs root) q = some k := by
  unfold initializeUserFilesDirectory
  rw [hmk]
  dsimp only
  rcases hrd : readdirE fs1 root with u | items
  · exact h
  · dsimp only
    by_cases hlen : items.length = 0
    · rw [if_pos hlen]
      rcases hmk2 : mkdirRec fs1 (root ++ ["Documents"]) with e | fs2
      · exact h
      · dsimp only
        rcases hmk3 : mkdirRec fs2 (root ++ ["Images"]) with e | fs3
        · exact statKind_mkdirRec_some hmk2 h
        · exact statKind_mkdirRec_some hmk3 (statKind_mkdirRec_some hmk2 h)
    · rw [if_neg hlen]
      exact h

theorem mkdirRec_ancestor_dirs {fs : FS} {root : List String}
    (h1 : root ≠ []) (h2 : root ∉ fs.failing)
    (h3 : ∀ q ∈ ancestors root, statKind fs q ≠ some FSKind.file)
    (hAnc : statKind fs root = some FSKind.dir →
      ∀ q ∈ ancestors root, q ≠ [] → statKind fs q = some FSKind.dir) :
    ∃ fs1, mkdirRec fs root = Except.ok fs1 ∧
      (∀ q ∈ ancestors root, q ≠ [] → statKind fs1 q = some FSKind.dir) := by
  unfold mkdirRec
  rw [if_neg h2]
  rcases hst : statKind fs root with _ | k
  · dsimp only
    have hany : ((ancestors root).any (fun q => statKind fs q == some FSKind.file)) = false := by
      rw [List.any_eq_false]
      intro q hq
      simpa using h3 q hq
    rw [hany]
    simp only [Bool.false_eq_true, if_false]
    refine ⟨_, rfl, ?_⟩
    intro q hq hqne
    simp only [statKind_append_dirs]
    rcases hcase : statKind fs q with _ | k'
    · have hqL : q ∈ (ancestors root).filter
          (fun q' => !q'.isEmpty && statKind fs q' == none) := by
        rw [List.mem_filter]
        refine ⟨hq, ?_⟩
        rw [Bool.and_eq_true]
        constructor
        · simpa [List.isEmpty_iff] using hqne
        · simp [hcase]
      rw [if_pos hqL]
      rfl
    · rcases k' with _ | _
      · exact absurd hcase (h3 q hq)
      · rfl
  · rcases k with _ | _
    · exact absurd hst (h3 root (self_mem_ancestors root))
    · dsimp only
      exact ⟨fs, rfl, fun q hq hqne => hAnc hst q hq hqne⟩

theorem mkdirRec_seed (fsA : FS) (root : List String) (x : String)
    (hfail : root ++ [x] ∉ fsA.failing)
    (hnone : statKind fsA (root ++ [x]) = none)
    (hdirsA : ∀ q ∈ ancestors root, q ≠ [] → statKind fsA q = some FSKind.dir)
    (hnotfileA : ∀ q ∈ ancestors root, statKind fsA q ≠ some FSKind.file) :
    mkdirRec fsA (root ++ [x]) =
      Except.ok (FS.mk
        (fsA.entries ++ [FSEntry.mk (root ++ [x]) FSKind.dir fsA.now fsA.now 0])
        fsA.failing fsA.now) := by
  unfold mkdirRec
  rw [if_neg hfail, hnone]
  dsimp only
  have hany : ((ancestors (root ++ [x])).any
      (fun q => statKind fsA q == some FSKind.file)) = false := by
    rw [List.any_eq_false]
    intro q hq
    rw [ancestors_append_singleton] at hq
    rcases List.mem_append.mp hq with hq' | hq'
    · simpa using hnotfileA q hq'
    · have hqx : q = root ++ [x] := by simpa using hq'
      subst hqx
      simp [hnone]
  rw [hany]
  simp only [Bool.false_eq_true, if_false]
  have hfilter : (ancestors (root ++ [x])).filter
      (fun q => !q.isEmpty && statKind fsA q == none) = [root ++ [x]] := by
    rw [ancestors_append_singleton, List.filter_append]
    have hempty : (ancestors root).filter
        (fun q => !q.isEmpty && statKind fsA q == none) = [] := by
      rw [List.filter_eq_nil_iff]
      intro q hq
      by_cases hqe : q = []
      · subst hqe
        simp
      · have := hdirsA q hq hqe
        simp [this]
    rw [hempty, List.nil_append]
    have hne : (root ++ [x]).isEmpty = false := by
      simp [List.isEmpty_iff]
    simp [hne, hnone]
  rw [hfilter]
  rfl

theorem init_seeds_when_empty (root : List String) (fs : FS)
    (h1 : root ≠ []) (h2 : root ∉ fs.failing)
    (hD : root ++ ["Documents"] ∉ fs.failing)
    (hI : root ++ ["Images"] ∉ fs.failing)
    (h3 : ∀ q ∈ ancestors root, statKind fs q ≠ some FSKind.file)
    (hAnc : statKind fs root = some FSKind.dir →
      ∀ q ∈ ancestors root, q ≠ [] → statKind fs q = some FSKind.dir)
    (hOrph : ∀ e ∈ fs.entries, root.isPrefixOf e.path = false ∨ e.path = root) :
    childNames (initializeUserFilesDirectory fs root) root = ["Documents", "Images"] ∧
    childNames (initializeUserFilesDirectory fs root) (root ++ ["Documents"]) = [] ∧
    childNames (initializeUserFilesDirectory fs root) (root ++ ["Images"]) = [] := by
  obtain ⟨fs1, hmk, hdirs⟩ := mkdirRec_ancestor_dirs h1 h2 h3 hAnc
  obtain ⟨hf1, hn1, L, hLmem, hent1⟩ := mkdirRec_ok_shape hmk
  have hLlen : ∀ r ∈ L, r.length ≤ root.length := fun r hr => mem_ancestors_length (hLmem r hr)
  have hfs1 : fs1 = FS.mk
      (fs.entries ++ L.map (fun r => FSEntry.mk r FSKind.dir fs.now fs.now 0))
      fs.failing fs.now := by
    rcases fs1 with ⟨e1, f1, n1⟩
    simp only at hent1 hf1 hn1
    rw [hent1, hf1, hn1]
  have hstat1 : ∀ q, statKind fs1 q =
      (statKind fs q).or (if q ∈ L then some FSKind.dir else none) := by
    intro q
    rw [hfs1]
    exact statKind_append_dirs fs L q
  have hnotfile1 : ∀ q ∈ ancestors root, statKind fs1 q ≠ some FSKind.file := by
    intro q hq
    rw [hstat1]
    rcases hc : statKind fs q with _ | k
    · by_cases hm : q ∈ L <;> simp [hm]
    · rcases k with _ | _
      · exact absurd hc (h3 q hq)
      · simp
  have hnone1 : ∀ (x : String), statKind fs1 (root ++ [x]) = none := by
    intro x
    rw [hstat1]
    have hnotL : root ++ [x] ∉ L := by
      intro hmem
      have := hLlen _ hmem
      simp at this
    rw [if_neg hnotL]
    have hfsnone : statKind fs (root ++ [x]) = none := by
      unfold statKind lookupFS
      have hfind : fs.entries.find? (fun e => e.path == root ++ [x]) = none := by
        rw [List.find?_eq_none]
        intro e he hbeq
        have hpath : e.path = root ++ [x] := by simpa using hbeq
        rcases hOrph e he with horp | horp
        · rw [hpath, isPrefixOf_append_self] at horp
          cases horp
        · rw [hpath] at horp
          have hlen := congrArg List.length horp
          simp at hlen
      rw [hfind]
      rfl
    rw [hfsnone]
    rfl
  have hrdroot : readdirE fs1 root = Except.ok (childNames fs1 root) := by
    unfold readdirE
    rw [if_neg (by rw [hfs1]; exact h2)]
    rw [hdirs root (self_mem_ancestors root) h1]
  have hch1 : childNames fs1 root = [] := by
    rw [hfs1, childNames_mk_append]
    have hA : childNames (FS.mk fs.entries fs.failing fs.now) root = [] :=
      childNames_entries_orph hOrph (isPrefixOf_self root)
    have hB : childNames (FS.mk
        (L.map (fun r => FSEntry.mk r FSKind.dir fs.now fs.now 0)) fs.failing fs.now) root = [] := by
      apply childNames_nil_short
      intro e he
      rw [List.mem_map] at he
      obtain ⟨r, hr, rfl⟩ := he
      exact hLlen r hr
    rw [hA, hB]
    rfl
  have hmk2 : mkdirRec fs1 (root ++ ["Documents"]) =
      Except.ok (FS.mk
        (fs1.entries ++ [FSEntry.mk (root ++ ["Documents"]) FSKind.dir fs1.now fs1.now 0])
        fs1.failing fs1.now) :=
    mkdirRec_seed fs1 root "Documents" (by rw [hfs1]; exact hD) (hnone1 "Documents")
      hdirs hnotfile1
  have hstat2 : ∀ q, statKind (FS.mk
      (fs1.entries ++ [FSEntry.mk (root ++ ["Documents"]) FSKind.dir fs1.now fs1.now 0])
      fs1.failing fs1.now) q =
      (statKind fs1 q).or (if q ∈ [root ++ ["Documents"]] then some FSKind.dir else none) :=
    fun q => statKind_append_dirs fs1 [root ++ ["Documents"]] q
  have hDI : root ++ ["Images"] ∉ [root ++ ["Documents"]] := by
    intro hmem
    have heq : root ++ ["Images"] = root ++ ["Documents"] := by simpa using hmem
    have hcanc := List.append_cancel_left heq
    injection hcanc with hhead _
    exact absurd hhead (by decide)
  have hnone2 : statKind (FS.mk
      (fs1.entries ++ [FSEntry.mk (root ++ ["Documents"]) FSKind.dir fs1.now fs1.now 0])
      fs1.failing fs1.now) (root ++ ["Images"]) = none := by
    rw [hstat2, hnone1 "Images", if_neg hDI]
    rfl
  have hdirs2 : ∀ q ∈ ancestors root, q ≠ [] → statKind (FS.mk
      (fs1.entries ++ [FSEntry.mk (root ++ ["Documents"]) FSKind.dir fs1.now fs1.now 0])
      fs1.failing fs1.now) q = some FSKind.dir := by
    intro q hq hqe
    rw [hstat2, hdirs q hq hqe]
    rfl
  have hnotfile2 : ∀ q ∈ ancestors root, statKind (FS.mk
      (fs1.entries ++ [FSEntry.mk (root ++ ["Documents"]) FSKind.dir fs1.now fs1.now 0])
      fs1.failing fs1.now) q ≠ some FSKind.file := by
    intro q hq
    rw [hstat2]
    rcases hc : statKind fs1 q with _ | k
    · by_cases hm : q ∈ [root ++ ["Documents"]] <;> simp [hm]
    · rcases k with _ | _
      · exact absurd hc (hnotfile1 q hq)
      · simp
  have hmk3 := mkdirRec_seed (FS.mk
      (fs1.entries ++ [FSEntry.mk (root ++ ["Documents"]) FSKind.dir fs1.now fs1.now 0])
      fs1.failing fs1.now) root "Images" (by rw [hfs1]; exact hI) hnone2 hdirs2 hnotfile2
  have hinit : initializeUserFilesDirectory fs root = FS.mk
      ((fs1.entries ++ [FSEntry.mk (root ++ ["Documents"]) FSKind.dir fs1.now fs1.now 0]) ++
        [FSEntry.mk (root ++ ["Images"]) FSKind.dir fs1.now fs1.now 0])
      fs1.failing fs1.now := by
    unfold initializeUserFilesDirectory
    rw [hmk]
    dsimp only
    rw [hrdroot]
    dsimp only
    rw [hch1]
    have hzero : (([] : List String).length = 0) := rfl
    rw [if_pos hzero]
    rw [hmk2]
    dsimp only
    rw [hmk3]
  rw [hinit, hfs1]
  dsimp only
  refine ⟨?_, ?_, ?_⟩
  · rw [childNames_mk_append, childNames_mk_append, childNames_mk_append]
    rw [childNames_entries_orph hOrph (isPrefixOf_self root)]
    have hB : childNames (FS.mk
        (L.map (fun r => FSEntry.mk r FSKind.dir fs.now fs.now 0)) fs.failing fs.now) root = [] := by
      apply childNames_nil_short
      intro e he
      rw [List.mem_map] at he
      obtain ⟨r, hr, rfl⟩ := he
      exact hLlen r hr
    rw [hB, childNames_single_child, childNames_single_child]
    rfl
  · rw [childNames_mk_append, childNames_mk_append, childNames_mk_append]
    rw [childNames_entries_orph hOrph (isPrefixOf_append_self root ["Documents"])]
    have hlen1 : (root ++ ["Documents"]).length = root.length + 1 := by simp
    have hB : childNames (FS.mk
        (L.map (fun r => FSEntry.mk r FSKind.dir fs.now fs.now 0)) fs.failing fs.now)
        (root ++ ["Documents"]) = [] := by
      apply childNames_nil_short
      intro e he
      rw [List.mem_map] at he
      obtain ⟨r, hr, rfl⟩ := he
      have := hLlen r hr
      simp only [hlen1]
      omega
    have hC : childNames (FS.mk
        [FSEntry.mk (root ++ ["Documents"]) FSKind.dir fs.now fs.now 0] fs.failing fs.now)
        (root ++ ["Documents"]) = [] := by
      apply childNames_nil_short
      intro e he
      rw [List.mem_singleton] at he
      subst he
      simp
    have hC' : childNames (FS.mk
        [FSEntry.mk (root ++ ["Images"]) FSKind.dir fs.now fs.now 0] fs.failing fs.now)
        (root ++ ["Documents"]) = [] := by
      apply childNames_nil_short
      intro e he
      rw [List.mem_singleton] at he
      subst he
      simp
    rw [hB, hC, hC']
    rfl
  · rw [childNames_mk_append, childNames_mk_append, childNames_mk_append]
    rw [childNames_entries_orph hOrph (isPrefixOf_append_self root ["Images"])]
    have hlen1 : (root ++ ["Images"]).length = root.length + 1 := by simp
    have hB : childNames (FS.mk
        (L.map (fun r => FSEntry.mk r FSKind.dir fs.now fs.now 0)) fs.failing fs.now)
        (root ++ ["Images"]) = [] := by
      apply childNames_nil_short
      intro e he
      rw [List.mem_map] at he
      obtain ⟨r, hr, rfl⟩ := he
      have := hLlen r hr
      simp only [hlen1]
      omega
    have hC : childNames (FS.mk
        [FSEntry.mk (root ++ ["Documents"]) FSKind.dir fs.now fs.now 0] fs.failing fs.now)
        (root ++ ["Images"]) = [] := by
      apply childNames_nil_short
      intro e he
      rw [List.mem_singleton] at he
      subst he
      simp
    have hC' : childNames (FS.mk
        [FSEntry.mk (root ++ ["Images"]) FSKind.dir fs.now fs.now 0] fs.failing fs.now)
        (root ++ ["Images"]) = [] := by
      apply childNames_nil_short
      intro e he
      rw [List.mem_singleton] at he
      subst he
      simp
    rw [hB, hC, hC']
    rfl

theorem init_no_seed (root : List String) (fs : FS)
    (hne : childNames fs root ≠ []) :
    childNames (initializeUserFilesDirectory fs root) root = childNames fs root := by
  unfold initializeUserFilesDirectory
  rcases hmk : mkdirRec fs root with e | fs1
  · rfl
  · dsimp only
    obtain ⟨hf1, hn1, L, hLmem, hent1⟩ := mkdirRec_ok_shape hmk
    have hch : childNames fs1 root = childNames fs root := by
      unfold childNames
      rw [hent1, List.filterMap_append]
      have hnil : (L.map (fun r => FSEntry.mk r FSKind.dir fs.now fs.now 0)).filterMap
          (fun e => if e.path.length = root.length + 1 && root.isPrefixOf e.path
            then e.path.getLast? else none) = [] := by
        rw [List.filterMap_eq_nil_iff]
        intro e he
        rw [List.mem_map] at he
        obtain ⟨r, hr, rfl⟩ := he
        have := mem_ancestors_length (hLmem r hr)
        have hlen : (FSEntry.mk r FSKind.dir fs.now fs.now 0).path.length ≠
            root.length + 1 := by
          show r.length ≠ root.length + 1
          omega
        simp [hlen]
      rw [hnil, List.append_nil]
    rcases hrd : readdirE fs1 root with u | items
    · exact hch
    · dsimp only
      have hitems : items = childNames fs1 root := by
        unfold readdirE at hrd
        by_cases hfa : root ∈ fs1.failing
        · rw [if_pos hfa] at hrd
          cases hrd
        · rw [if_neg hfa] at hrd
          rcases hsk : statKind fs1 root with _ | k
          · rw [hsk] at hrd
            cases hrd
          · rcases k with _ | _
            · rw [hsk] at hrd
              cases hrd
            · rw [hsk] at hrd
              exact (Except.ok.inj hrd).symm
      have hlen0 : ¬(items.length = 0) := by
        rw [hitems, hch, List.length_eq_zero]
        exact hne
      rw [if_neg hlen0]
      exact hch

theorem init_swallows_failing (root : List String) (fs : FS)
    (h : root ∈ fs.failing) : initializeUserFilesDirectory fs root = fs := by
  unfold initializeUserFilesDirectory mkdirRec
  rw [if_pos h]

theorem getHandler_never_500 (root : List String) (fs : FS) (rp : String) :
    (getHandler root fs rp).1.status ≠ 500 := by
  simp only [getHandler]
  rcases hs : statKind (initializeUserFilesDirectory fs root) (root ++ segsOf rp) with _ | k
  · simp
  · rcases k with _ | _ <;> simp

/-- C7: the Directory Initializer (a) ensures the root directory and its
missing intermediate segments exist after the call, (b) seeds exactly the
two empty subfolders `Documents` and `Images` precisely when the
directory is empty after creation — and adds no children when it is not
— and (c) swallows every error, returning the filesystem unchanged when
the root operation fails, so (d) the enclosing GET request never answers
500. The existence and seeding parts assume the usual well-formedness of
the input filesystem: no path is both present and failing in a
conflicting way (no prefix of the root is a file, an existing root
directory has existing ancestors, and nothing lives strictly below the
root when seeding is expected). -/
theorem initializer_contract :
    (∀ (root : List String) (fs : FS), root ≠ [] → root ∉ fs.failing →
      (∀ q ∈ ancestors root, statKind fs q ≠ some FSKind.file) →
      (statKind fs root = some FSKind.dir →
        ∀ q ∈ ancestors root, q ≠ [] → statKind fs q = some FSKind.dir) →
      ∀ q ∈ ancestors root, q ≠ [] →
        statKind (initializeUserFilesDirectory fs root) q = some FSKind.dir) ∧
    (∀ (root : List String) (fs : FS), root ≠ [] → root ∉ fs.failing →
      root ++ ["Documents"] ∉ fs.failing → root ++ ["Images"] ∉ fs.failing →
      (∀ q ∈ ancestors root, statKind fs q ≠ some FSKind.file) →
      (statKind fs root = some FSKind.dir →
        ∀ q ∈ ancestors root, q ≠ [] → statKind fs q = some FSKind.dir) →
      (∀ e ∈ fs.entries, root.isPrefixOf e.path = false ∨ e.path = root) →
      childNames (initializeUserFilesDirectory fs root) root = ["Documents", "Images"] ∧
      childNames (initializeUserFilesDirectory fs root) (root ++ ["Documents"]) = [] ∧
      childNames (initializeUserFilesDirectory fs root) (root ++ ["Images"]) = []) ∧
    (∀ (root : List String) (fs : FS), childNames fs root ≠ [] →
      childNames (initializeUserFilesDirectory fs root) root = childNames fs root) ∧
    (∀ (root : List String) (fs : FS), root ∈ fs.failing →
      initializeUserFilesDirectory fs root = fs) ∧
    (∀ (root : List String) (fs : FS) (rp : String),
      (getHandler root fs rp).1.status ≠ 500) := by
  refine ⟨?_, ?_, ?_, ?_, ?_⟩
  · intro root fs h1 h2 h3 hAnc q hq hqe
    obtain ⟨fs1, hmk, hdirs⟩ := mkdirRec_ancestor_dirs h1 h2 h3 hAnc
    exact statKind_init_of_mkdir hmk (hdirs q hq hqe)
  · intro root fs h1 h2 hD hI h3 hAnc hOrph
    exact init_seeds_when_empty root fs h1 h2 hD hI h3 hAnc hOrph
  · exact init_no_seed
  · exact init_swallows_failing
  · exact getHandler_never_500

/-- Witness for C7 at concrete inputs: on an empty filesystem the
initializer creates `u/v` with its intermediate segment, a fresh `u` root
is seeded with exactly `Documents` and `Images`, a non-empty root is left
as it is, a failing root makes the call a no-op, and a GET never answers
500. -/
theorem initializer_contract_witness :
    statKind (initializeUserFilesDirectory (FS.mk [] [] 3) ["u", "v"]) ["u"] =
      some FSKind.dir ∧
    childNames (initializeUserFilesDirectory (FS.mk [] [] 0) ["u"]) ["u"] =
      ["Documents", "Images"] ∧
    childNames (initializeUserFilesDirectory
      (FS.mk [FSEntry.mk ["u"] FSKind.dir 0 0 0, FSEntry.mk ["u", "a"] FSKind.file 0 0 1]
        [] 0) ["u"]) ["u"] =
      childNames (FS.mk [FSEntry.mk ["u"] FSKind.dir 0 0 0,
        FSEntry.mk ["u", "a"] FSKind.file 0 0 1] [] 0) ["u"] ∧
    initializeUserFilesDirectory (FS.mk [] [["u"]] 0) ["u"] = FS.mk [] [["u"]] 0 ∧
    (getHandler ["u"] (FS.mk [] [] 0) "x").1.status ≠ 500 :=
  ⟨initializer_contract.1 ["u", "v"] (FS.mk [] [] 3) (by decide) (by decide) (by decide)
      (by decide) ["u"] (by decide) (by decide),
   (initializer_contract.2.1 ["u"] (FS.mk [] [] 0) (by decide) (by decide) (by decide)
      (by decide) (by decide) (by decide) (by decide)).1,
   initializer_contract.2.2.1 ["u"]
      (FS.mk [FSEntry.mk ["u"] FSKind.dir 0 0 0, FSEntry.mk ["u", "a"] FSKind.file 0 0 1]
        [] 0) (by decide),
   initializer_contract.2.2.2.1 ["u"] (FS.mk [] [["u"]] 0) (by decide),
   initializer_contract.2.2.2.2 ["u"] (FS.mk [] [] 0) "x"⟩
